import Mathlib

/-!
Verification development for the anylink transport gateway
(WS/QUIC ↔ TCP bridge, Go).  The definitions below are a shallow
embedding of the Go source: `internal/server/server.go` (rule
compilation, authorization, session handling), the `internal/bridge`
package (copy loops, WS framing, TCP pool) and the metrics registry.
Machine integers are modelled as `Nat` with explicit `% 2 ^ w` at the
points where the Go code truncates; byte slices are `List Nat`;
fallible Go functions returning `(T, error)` become `Option`.
-/

namespace AnyLink

/-! ## Target authorizer (`compileRules`, `isAllowedEnhanced`)

`compileRules` turns each allow-list entry into a `TargetRule`.  A
wildcard entry is compiled via `"^" + regexp.QuoteMeta(t) + "$"`
followed by `strings.ReplaceAll(pattern, "\\*", ".*")`; we embed
`QuoteMeta` and the replacement literally over `List Char`. -/

/-- The characters Go's `regexp.QuoteMeta` escapes (regexp/regexp.go
`specialBytes`): backslash, dot, plus, star, question mark, parens,
pipe, square brackets, curly braces, caret, dollar. -/
def specialChars : List Char :=
  ['\\', '.', '+', '*', '?', '(', ')', '|', '[', ']',
   Char.ofNat 123, Char.ofNat 125, '^', '$']

def isSpecial (c : Char) : Bool := specialChars.contains c

/-- Embedding of Go `regexp.QuoteMeta` on the character list of the
input: every special character is preceded by a backslash. -/
def quoteMeta : List Char → List Char
  | [] => []
  | c :: rest => if isSpecial c then '\\' :: c :: quoteMeta rest else c :: quoteMeta rest

/-- Embedding of `strings.ReplaceAll(pattern, "\\*", ".*")`: a
left-to-right, non-overlapping replacement of the two-character
sequence backslash-star by dot-star. -/
def replaceEscStar : List Char → List Char
  | [] => []
  | [c] => [c]
  | c₁ :: c₂ :: rest =>
    if c₁ = '\\' ∧ c₂ = '*' then '.' :: '*' :: replaceEscStar rest
    else c₁ :: replaceEscStar (c₂ :: rest)

/-- The pattern built by `compileRules` for a wildcard entry:
`"^" + QuoteMeta(t) + "$"` with every `\*` then rewritten to `.*`
(the `ReplaceAll` runs over the whole anchored pattern, as in the
source). -/
def compileWildcardPattern (t : String) : List Char :=
  replaceEscStar ('^' :: quoteMeta t.toList ++ ['$'])

/-! Semantics of the produced regular expressions.  The patterns that
`compileRules` emits use only: the two anchors, backslash-escaped
literal characters, and `.*`.  We give them (and the `.` the spec
speaks about) an executable matching semantics via a token list. -/

inductive Tok : Type
  | star : Tok
  | dot : Tok
  | lit : Char → Tok
deriving DecidableEq

/-- Tokenize a (non-anchored) pattern body: `\c` is a literal `c`,
`.*` is Kleene-star over any character, a bare `.` matches any single
character, anything else is a literal. -/
def tokenize : List Char → List Tok
  | [] => []
  | [c] => if c = '.' then [Tok.dot] else [Tok.lit c]
  | c₁ :: c₂ :: rest =>
    if c₁ = '\\' then Tok.lit c₂ :: tokenize rest
    else if c₁ = '.' ∧ c₂ = '*' then Tok.star :: tokenize rest
    else if c₁ = '.' then Tok.dot :: tokenize (c₂ :: rest)
    else Tok.lit c₁ :: tokenize (c₂ :: rest)

/-- All suffixes of a character list, longest first. -/
def suffixes : List Char → List (List Char)
  | [] => [[]]
  | c :: rest => (c :: rest) :: suffixes rest

/-- Full-string match of a token list against a character list
(the patterns in play are anchored at both ends, so `MatchString`
is a whole-string match).  `.*` consumes an arbitrary prefix: the
rest of the pattern must match some suffix. -/
def matchTokens : List Tok → List Char → Bool
  | [], s => s.isEmpty
  | Tok.lit _ :: _, [] => false
  | Tok.lit c :: ts, d :: ds => c = d && matchTokens ts ds
  | Tok.dot :: _, [] => false
  | Tok.dot :: ts, _ :: ds => matchTokens ts ds
  | Tok.star :: ts, s => (suffixes s).any fun suf => matchTokens ts suf

/-- Strip the leading `^` and trailing `$` anchor, if present. -/
def stripAnchors (pat : List Char) : List Char :=
  let p := match pat with
    | '^' :: rest => rest
    | other => other
  if p.getLast? = some '$' then p.dropLast else p

/-- Models Go `Regexp.MatchString` for the doubly-anchored patterns
produced by `compileRules`: strip the anchors and whole-string match. -/
def regexMatchString (pat : List Char) (s : String) : Bool :=
  matchTokens (tokenize (stripAnchors pat)) s.toList

/-! IPv4 addresses and CIDR networks (`net.ParseIP`, `net.ParseCIDR`,
`IPNet.Contains`), modelled for dotted-decimal IPv4 — the only address
family the allow-list claims exercise. -/

def parseByte (s : List Char) : Option Nat :=
  if s = [] then none
  else if ¬ s.all Char.isDigit then none
  else if 1 < s.length ∧ s.headD '0' = '0' then none
  else
    let v := s.foldl (fun a c => a * 10 + (c.toNat - 48)) 0
    if v ≤ 255 then some v else none

def splitOnChar (sep : Char) : List Char → List (List Char)
  | [] => [[]]
  | c :: rest =>
    let r := splitOnChar sep rest
    if c = sep then [] :: r
    else (c :: r.headD []) :: r.tail

/-- `net.ParseIP` for dotted-decimal IPv4: four decimal fields,
each 0–255, no leading zeros. -/
def parseIPv4 (s : String) : Option Nat :=
  match (splitOnChar '.' s.toList).mapM parseByte with
  | some [a, b, c, d] => some (((a * 256 + b) * 256 + c) * 256 + d)
  | _ => none

structure IPNet : Type where
  ip : Nat
  bits : Nat
deriving DecidableEq

/-- `net.ParseCIDR`: address slash prefix length; returns the masked
network. -/
def parseCIDR (s : String) : Option IPNet :=
  match splitOnChar '/' s.toList with
  | [a, m] =>
    match parseIPv4 (String.mk a), parseByte m with
    | some ip, some bits =>
      if bits ≤ 32 then some ⟨ip / 2 ^ (32 - bits) * 2 ^ (32 - bits), bits⟩ else none
    | _, _ => none
  | _ => none

/-- `IPNet.Contains`: mask the address and compare with the network. -/
def netContains (n : IPNet) (ip : Nat) : Bool :=
  ip / 2 ^ (32 - n.bits) * 2 ^ (32 - n.bits) = n.ip

/-- Split a list at its last colon: `some (before, after)` or `none`
when no colon occurs. -/
def splitLastColon : List Char → Option (List Char × List Char)
  | [] => none
  | c :: rest =>
    match splitLastColon rest with
    | some (h, p) => some (c :: h, p)
    | none => if c = ':' then some ([], rest) else none

/-- Models `net.SplitHostPort` as used by `isAllowedEnhanced`: the
caller discards the error, in which case `host` is the empty string.
Handles `host:port` and bracketed `[host]:port`; no colon at all, or a
bare (unbracketed) colon-bearing host, is an error. -/
def splitHostPort (s : String) : String :=
  match splitLastColon s.toList with
  | none => ""
  | some (h, _) =>
    if h.headD ' ' = '[' ∧ h.getLast? = some ']' then
      String.mk (h.drop 1).dropLast
    else if h.contains ':' then ""
    else String.mk h

/-- Embedding of the Go `TargetRule` struct: `Raw`, the compiled
`Regex` (kept as its pattern characters), `CIDRNet`, `IsDomain`. -/
structure TargetRule : Type where
  raw : String
  regex : Option (List Char) := none
  cidrNet : Option IPNet := none
  isDomain : Bool := false
deriving DecidableEq

/-- Embedding of `compileRules`: CIDR entries (containing `/`) are
parsed (a parse error aborts with `none`, as the Go function returns
the error); entries containing `*` or `?` compile to an anchored regex
with `IsDomain` set; entries containing `:` are exact `host:port`
matches; everything else is an exact domain. -/
def compileRules (list : List String) : Option (List TargetRule) :=
  match list with
  | [] => some []
  | t :: rest =>
    let r? : Option TargetRule :=
      if t.toList.contains '/' then
        match parseCIDR t with
        | some net => some { raw := t, cidrNet := some net }
        | none => none
      else if t.toList.contains '*' ∨ t.toList.contains '?' then
        some { raw := t, regex := some (compileWildcardPattern t), isDomain := true }
      else if t.toList.contains ':' then
        some { raw := t }
      else
        some { raw := t, isDomain := true }
    match r?, compileRules rest with
    | some r, some rs => some (r :: rs)
    | _, _ => none

/-- The per-rule test inside `isAllowedEnhanced`'s loop (branch order
as in the source: CIDR, then regex, then exact domain, then exact). -/
def ruleAllows (r : TargetRule) (host target : String) : Bool :=
  match r.cidrNet with
  | some net =>
    match parseIPv4 host with
    | some ip => netContains net ip
    | none => false
  | none =>
    match r.regex with
    | some pat => regexMatchString pat target
    | none => if r.isDomain then host = r.raw else target = r.raw

/-- Embedding of `isAllowedEnhanced`: the empty rule list allows
everything; otherwise the host part is split off once and the rules
are scanned in order, first match wins. -/
def isAllowedEnhanced (rules : List TargetRule) (target : String) : Bool :=
  if rules.isEmpty then true
  else
    let host := splitHostPort target
    rules.any fun r => ruleAllows r host target

/-! ## WebSocket framing (`writeWSFrame`, `readWSFrame`)

Frames are `[streamID(4B BE)][len(4B BE)][payload]`.  Bytes are `Nat`
values; `binary.BigEndian.PutUint32` truncation is the `% 256` on each
extracted byte (which equals truncating the value to `2 ^ 32` first). -/

/-- `binary.BigEndian.PutUint32`: the four big-endian bytes of the
low 32 bits of `v`. -/
def putUint32BE (v : Nat) : List Nat :=
  [v / 2 ^ 24 % 256, v / 2 ^ 16 % 256, v / 2 ^ 8 % 256, v % 256]

/-- `binary.BigEndian.Uint32` on four bytes. -/
def getUint32BE (b0 b1 b2 b3 : Nat) : Nat :=
  ((b0 * 256 + b1) * 256 + b2) * 256 + b3

/-- Embedding of `writeWSFrame`'s buffer: 4-byte big-endian stream id,
4-byte big-endian `uint32(len(data))`, then the payload. -/
def writeWSFrameBytes (streamID : Nat) (data : List Nat) : List Nat :=
  putUint32BE streamID ++ putUint32BE data.length ++ data

/-- Embedding of `readWSFrame` over the bytes available from the
reader: `io.ReadFull` of the 8-byte header, then `io.ReadFull` of
`length` payload bytes; too few bytes at either step is an error
(`none`).  Bytes past the payload stay in the reader and are ignored. -/
def readWSFrame (input : List Nat) : Option (Nat × List Nat) :=
  match input with
  | b0 :: b1 :: b2 :: b3 :: b4 :: b5 :: b6 :: b7 :: rest =>
    let sid := getUint32BE b0 b1 b2 b3
    let len := getUint32BE b4 b5 b6 b7
    if rest.length < len then none else some (sid, rest.take len)
  | _ => none

/-! ## Copy loops

Each bridge runs two loops.  A loop iteration consumes one read result
`ReadEv` (the chunk `data`, and `err = true` when that read also
returned an error — Go I/O may return both).  Write results come from
an oracle list consumed one entry per write (`true` = the write
errored); an exhausted oracle means the write succeeded.  A loop that
executed `return` has `stopped = true` and ignores further events, so
running the fold over more events leaves it unchanged. -/

structure ReadEv : Type where
  data : List Nat
  err : Bool
deriving DecidableEq

def nextW (ws : List Bool) : Bool × List Bool :=
  match ws with
  | [] => (false, [])
  | w :: rest => (w, rest)

/-- Bytes-to-string for the QUIC target handshake (`string(buf[:n])`);
codepoint-per-byte, faithful for the ASCII `host:port` strings in
scope. -/
def strOfBytes (l : List Nat) : String := String.mk (l.map Char.ofNat)

/-! ### `startQUIC`, QUIC → TCP direction

On a read with `n > 0` and no TCP connection yet: the chunk becomes
`b.target`, `net.Dial` runs (unconditionally — the loop consults no
allow-list), a failed dial returns, a successful dial `continue`s to
the next iteration, *skipping this iteration's error check*.  With a
connection: count the bytes, write them to TCP, return on write error.
Finally `return` if the read had an error. -/

structure QTSt : Type where
  target : Option String := none
  tcpConn : Option String := none
  bytesReceived : Nat := 0
  forwarded : List Nat := []
  dials : List String := []
  wres : List Bool := []
  stopped : Bool := false
deriving DecidableEq

def quicToTCPStep (dialOk : String → Bool) (st : QTSt) (ev : ReadEv) : QTSt :=
  if st.stopped then st
  else
    let next : QTSt × Bool :=
      if ev.data = [] then (st, false)
      else
        match st.tcpConn with
        | none =>
          let t := strOfBytes ev.data
          let st' := { st with target := some t, dials := st.dials ++ [t] }
          if dialOk t then ({ st' with tcpConn := some t }, true)
          else ({ st' with stopped := true }, true)
        | some _ =>
          let w := nextW st.wres
          let st' := { st with bytesReceived := st.bytesReceived + ev.data.length,
                               wres := w.2 }
          if w.1 then ({ st' with stopped := true }, true)
          else ({ st' with forwarded := st'.forwarded ++ ev.data }, false)
    if next.2 then next.1
    else if ev.err then { next.1 with stopped := true }
    else next.1

def runQuicToTCP (dialOk : String → Bool) (st : QTSt) (evs : List ReadEv) : QTSt :=
  evs.foldl (quicToTCPStep dialOk) st

/-! ### `startWS`, TCP → WS direction

Read from TCP; on `n > 0` count the bytes and write one WS frame with
stream id 1, returning on write error; then return if the read
errored. -/

structure TWSt : Type where
  bytesSent : Nat := 0
  frames : List (List Nat) := []
  wres : List Bool := []
  stopped : Bool := false
deriving DecidableEq

def tcpToWSStep (st : TWSt) (ev : ReadEv) : TWSt :=
  if st.stopped then st
  else
    let next : TWSt × Bool :=
      if ev.data = [] then (st, false)
      else
        let w := nextW st.wres
        let st' := { st with bytesSent := st.bytesSent + ev.data.length, wres := w.2 }
        if w.1 then ({ st' with stopped := true }, true)
        else ({ st' with frames := st'.frames ++ [writeWSFrameBytes 1 ev.data] }, false)
    if next.2 then next.1
    else if ev.err then { next.1 with stopped := true }
    else next.1

def runTcpToWS (st : TWSt) (evs : List ReadEv) : TWSt :=
  evs.foldl tcpToWSStep st

/-! ### `startWS`, WS → TCP direction

`NextReader` yields either an error (loop returns) or a message.
Non-binary messages are skipped; a malformed frame returns; a frame
with stream id ≠ 1 is skipped; otherwise the payload is written to TCP
with `n, _ := Write(payload)` — the write's error is *discarded* and
only the byte count `n` is used, so the loop continues regardless.
The write oracle entries are `(n, err)` pairs. -/

inductive WSEv : Type
  | fail : WSEv
  | msg : Bool → List Nat → WSEv
deriving DecidableEq

def nextWN (ws : List (Nat × Bool)) (full : Nat) : (Nat × Bool) × List (Nat × Bool) :=
  match ws with
  | [] => ((full, false), [])
  | w :: rest => (w, rest)

structure WTSt : Type where
  bytesReceived : Nat := 0
  writes : List (List Nat) := []
  wres : List (Nat × Bool) := []
  stopped : Bool := false
deriving DecidableEq

def wsToTCPStep (st : WTSt) (ev : WSEv) : WTSt :=
  if st.stopped then st
  else
    match ev with
    | WSEv.fail => { st with stopped := true }
    | WSEv.msg isBinary bytes =>
      if ¬ isBinary then st
      else
        match readWSFrame bytes with
        | none => { st with stopped := true }
        | some (sid, payload) =>
          if sid ≠ 1 then st
          else
            let w := nextWN st.wres payload.length
            { st with bytesReceived := st.bytesReceived + w.1.1,
                      writes := st.writes ++ [payload],
                      wres := w.2 }

def runWsToTCP (st : WTSt) (evs : List WSEv) : WTSt :=
  evs.foldl wsToTCPStep st

/-! ### `startQUIC`, TCP → QUIC direction

Modelled from the point where `b.tcpConn` is non-nil (before that the
loop sleeps 10 ms and re-checks, reading nothing).  Read from TCP; on
`n > 0` count the bytes and write the chunk to the QUIC stream,
returning on write error; then return if the read errored. -/

structure TQSt : Type where
  bytesSent : Nat := 0
  sent : List (List Nat) := []
  wres : List Bool := []
  stopped : Bool := false
deriving DecidableEq

def tcpToQUICStep (st : TQSt) (ev : ReadEv) : TQSt :=
  if st.stopped then st
  else
    let next : TQSt × Bool :=
      if ev.data = [] then (st, false)
      else
        let w := nextW st.wres
        let st' := { st with bytesSent := st.bytesSent + ev.data.length, wres := w.2 }
        if w.1 then ({ st' with stopped := true }, true)
        else ({ st' with sent := st'.sent ++ [ev.data] }, false)
    if next.2 then next.1
    else if ev.err then { next.1 with stopped := true }
    else next.1

def runTcpToQUIC (st : TQSt) (evs : List ReadEv) : TQSt :=
  evs.foldl tcpToQUICStep st

/-! ## TCP pool (`bridge.TCPPool`)

Maps become total functions (`backends` keeps Go's missing-key check
via `Option`; `counters` is total with default 0, matching that `Get`
only touches a counter `AddTargets` initialized).  The round-robin
counter is a `uint32`: `atomic.AddUint32(p, 1)` wraps modulo `2 ^ 32`
and returns the *incremented* value.  Connections are abstract (`α`);
`dial` stands for `net.DialTimeout` on the backend address. -/

def strUpdate {β : Type} (f : String → β) (k : String) (v : β) : String → β :=
  fun q => if q = k then v else f q

structure TCPPool (α : Type) : Type where
  conns : String → List α
  backends : String → Option (List String)
  counters : String → Nat
  maxSize : Nat

/-- The backend `Get` selects for `logical`:
`backends[int(atomic.AddUint32(counter, 1)) % len(backends)]`. -/
def TCPPool.chosenBackend {α : Type} (p : TCPPool α) (logical : String) : Option String :=
  match p.backends logical with
  | none => none
  | some bs =>
    if bs.isEmpty then none
    else some (bs.getD ((p.counters logical + 1) % 2 ^ 32 % bs.length) "")

/-- Embedding of `TCPPool.Get`: fail when the logical target has no
backends; bump the round-robin counter and select the backend; pop the
top (last element) of that backend's idle stack when non-empty,
otherwise dial a fresh connection. -/
def TCPPool.Get {α : Type} (p : TCPPool α) (dial : String → α) (logical : String) :
    Option (α × TCPPool α) :=
  match p.backends logical with
  | none => none
  | some bs =>
    if bs.isEmpty then none
    else
      let idx := (p.counters logical + 1) % 2 ^ 32
      let backend := bs.getD (idx % bs.length) ""
      let p1 : TCPPool α := { p with counters := strUpdate p.counters logical idx }
      match (p1.conns backend).getLast? with
      | some c =>
        some (c, { p1 with conns := strUpdate p1.conns backend (p1.conns backend).dropLast })
      | none => some (dial backend, p1)

/-- Embedding of `TCPPool.Put`: when the target's idle stack already
holds `maxSize` or more connections, close the connection (the `Bool`
reports this) and leave the pool unchanged; otherwise push it. -/
def TCPPool.Put {α : Type} (p : TCPPool α) (target : String) (conn : α) :
    TCPPool α × Bool :=
  if p.maxSize ≤ (p.conns target).length then (p, true)
  else ({ p with conns := strUpdate p.conns target (p.conns target ++ [conn]) }, false)

/-! ## QUIC session state and idle reaper

`handleQUICSession` sets `lastActive := time.Now()` when a stream is
accepted (and at session creation).  The bridge copy loops in
`startQUIC` hold no reference to the `sessionState` and never touch
`lastActive`.  `cleanupIdleSessions` evicts a session when
`now.Sub(lastActive) > 30 * time.Second`.  Times are seconds as `Nat`. -/

inductive SessEv : Type
  | acceptStream : Nat → Nat → SessEv
  | bytesFlow : Nat → Nat → Nat → SessEv
deriving DecidableEq

structure SessSt : Type where
  lastActive : Nat
  streams : List Nat
deriving DecidableEq

/-- How the code changes a session's state on each event:
`acceptStream sid now` registers the bridge and refreshes
`lastActive`; `bytesFlow sid n now` (bytes moving on an existing
bridge) changes nothing, because `startQUIC`'s loops never reach the
session state. -/
def sessionStep (st : SessSt) : SessEv → SessSt
  | SessEv.acceptStream sid now => { lastActive := now, streams := st.streams ++ [sid] }
  | SessEv.bytesFlow _ _ _ => st

def runSession (st : SessSt) (evs : List SessEv) : SessSt :=
  evs.foldl sessionStep st

/-- `cleanupIdleSessions`'s per-session test at scan time `now`. -/
def reaperEvicts (now : Nat) (st : SessSt) : Bool := 30 < now - st.lastActive

/-! ## Metrics registry (`MetricsManager`)

`streams` is the id → metrics map; counters are Go `int64` (claims in
scope involve no overflow, so plain `Int`); `LastActive` is a
timestamp (`Nat`). -/

structure StreamMetrics : Type where
  bytesSent : Int := 0
  bytesReceived : Int := 0
  errors : Int := 0
  lastActive : Nat := 0
deriving DecidableEq

structure MetricsManager : Type where
  streams : String → Option StreamMetrics

def metricsUpdate (f : String → Option StreamMetrics) (k : String)
    (v : Option StreamMetrics) : String → Option StreamMetrics :=
  fun q => if q = k then v else f q

/-- `RegisterStream`: insert a fresh entry unless the id exists. -/
def MetricsManager.RegisterStream (m : MetricsManager) (id : String) (now : Nat) :
    MetricsManager :=
  match m.streams id with
  | some _ => m
  | none => ⟨metricsUpdate m.streams id (some { lastActive := now })⟩

/-- `AddBytes`: update the stream's byte counters and `LastActive`
when the id is registered; otherwise do nothing. -/
def MetricsManager.AddBytes (m : MetricsManager) (id : String) (sent recv : Int)
    (now : Nat) : MetricsManager :=
  match m.streams id with
  | none => m
  | some s =>
    ⟨metricsUpdate m.streams id
      (some { s with bytesSent := s.bytesSent + sent,
                     bytesReceived := s.bytesReceived + recv,
                     lastActive := now })⟩

/-- `AddError`: increment the stream's error counter when the id is
registered; otherwise do nothing. -/
def MetricsManager.AddError (m : MetricsManager) (id : String) : MetricsManager :=
  match m.streams id with
  | none => m
  | some s => ⟨metricsUpdate m.streams id (some { s with errors := s.errors + 1 })⟩

/-! ## Spec-side definitions and concrete fixtures -/

/-- The per-character pattern fragment the source's compilation
actually produces: `*` becomes `.*`; every other `QuoteMeta`-special
character (including `?`) is backslash-escaped and so matches itself
literally; remaining characters appear as themselves. -/
def escGo (c : Char) : List Char :=
  if c = '*' then ['.', '*'] else if isSpecial c then ['\\', c] else [c]

/-- The wildcard pattern as the spec describes it (refinement
comparison target, built from the spec's words, not from the source):
`*` becomes `.*`, `?` becomes `.`, every other character matches
literally (specials escaped), anchored at both ends. -/
def specWildcardPattern (t : String) : List Char :=
  '^' :: (t.toList.flatMap fun c =>
    if c = '*' then ['.', '*']
    else if c = '?' then ['.']
    else if isSpecial c then ['\\', c] else [c]) ++ ['$']

/-- A pool with one logical target `"svc"` backed by `["b0", "b1"]`,
fresh counter, no idle connections. -/
def pool4 : TCPPool String :=
  { conns := fun _ => []
    backends := fun q => if q = "svc" then some ["b0", "b1"] else none
    counters := fun _ => 0
    maxSize := 16 }

/-- A pool for exercising `Put`: capacity 2, one idle connection at
`"b"`. -/
def pool5 : TCPPool Nat :=
  { conns := fun q => if q = "b" then [10] else []
    backends := fun q => if q = "svc" then some ["b"] else none
    counters := fun _ => 0
    maxSize := 2 }

/-! ## Theorems -/

/-- Reading back the four big-endian bytes of a value below `2 ^ 32`
recovers the value. -/
theorem be32_roundtrip (v : Nat) (h : v < 2 ^ 32) :
    getUint32BE (v / 2 ^ 24 % 256) (v / 2 ^ 16 % 256) (v / 2 ^ 8 % 256) (v % 256) = v := by
  simp only [getUint32BE]
  omega

/-- Claim C9: for every stream id (a `uint32`) and every payload
shorter than `2 ^ 32` bytes, parsing the frame produced by
`writeWSFrame` (4-byte big-endian stream id, 4-byte big-endian length,
then exactly that many payload bytes) returns exactly the original
stream id and payload. -/
theorem C9_frame_roundtrip (sid : Nat) (data : List Nat)
    (h1 : sid < 2 ^ 32) (h2 : data.length < 2 ^ 32) :
    readWSFrame (writeWSFrameBytes sid data) = some (sid, data) := by
  have hsid := be32_roundtrip sid h1
  have hlen := be32_roundtrip data.length h2
  simp only [writeWSFrameBytes, putUint32BE, List.cons_append, List.nil_append, readWSFrame]
  rw [hsid, hlen]
  simp

/-- Witness for C9 at stream id 7 and payload `[1, 2, 3]`. -/
theorem C9_wit : readWSFrame (writeWSFrameBytes 7 [1, 2, 3]) = some (7, [1, 2, 3]) :=
  C9_frame_roundtrip 7 [1, 2, 3] (by decide) (by decide)

/-- Claim C10: for a stream id that is not registered in the metrics
registry, `AddBytes` and `AddError` leave the registry completely
unchanged — no entry is created and no counter of any stream moves. -/
theorem C10_unregistered_noop (m : MetricsManager) (id : String) (sent recv : Int)
    (now : Nat) (h : m.streams id = none) :
    m.AddBytes id sent recv now = m ∧ m.AddError id = m := by
  constructor <;> simp [MetricsManager.AddBytes, MetricsManager.AddError, h]

/-- Witness for C10 on the empty registry and id `"s1"`. -/
theorem C10_wit :
    MetricsManager.AddBytes ⟨fun _ => none⟩ "s1" 3 4 5 = (⟨fun _ => none⟩ : MetricsManager) ∧
    MetricsManager.AddError ⟨fun _ => none⟩ "s1" = (⟨fun _ => none⟩ : MetricsManager) :=
  C10_unregistered_noop ⟨fun _ => none⟩ "s1" 3 4 5 rfl

/-- Claim C5: `Put` appends the connection to the backend's idle
stack iff the stack currently holds fewer than `tcp_pool_size`
connections, and otherwise closes the connection leaving the pool
unchanged; consequently a `Put` of the connection a `Get` returned adds
exactly one idle connection at that backend iff its stack (at put
time) has fewer than `tcp_pool_size` entries. -/
theorem C5_put_iff {α : Type} (p : TCPPool α) (k : String) (c : α) :
    (((p.Put k c).1.conns k).length = (p.conns k).length + 1 ↔
      (p.conns k).length < p.maxSize) ∧
    ((p.conns k).length < p.maxSize →
      (p.Put k c).1.conns k = p.conns k ++ [c] ∧ (p.Put k c).2 = false ∧
      ∀ q, q ≠ k → (p.Put k c).1.conns q = p.conns q) ∧
    (p.maxSize ≤ (p.conns k).length → (p.Put k c).1 = p ∧ (p.Put k c).2 = true) ∧
    (∀ (dial : String → α) (logical : String) (conn : α) (p' : TCPPool α),
      p.Get dial logical = some (conn, p') → ∀ b,
        (((p'.Put b conn).1.conns b).length = (p'.conns b).length + 1 ↔
          (p'.conns b).length < p'.maxSize)) := by
  refine ⟨?_, ?_, ?_, ?_⟩
  · by_cases hle : p.maxSize ≤ (p.conns k).length
    · simp [TCPPool.Put, hle, strUpdate]
    · simp [TCPPool.Put, hle, strUpdate]
      omega
  · intro hlt
    have hle : ¬ p.maxSize ≤ (p.conns k).length := by omega
    refine ⟨by simp [TCPPool.Put, hle, strUpdate], by simp [TCPPool.Put, hle], ?_⟩
    intro q hq
    simp [TCPPool.Put, hle, strUpdate, hq]
  · intro hle
    constructor <;> simp [TCPPool.Put, hle]
  · intro dial logical conn p' _ b
    by_cases hle : p'.maxSize ≤ (p'.conns b).length
    · simp [TCPPool.Put, hle, strUpdate]
    · simp [TCPPool.Put, hle, strUpdate]
      omega

/-- Witness for C5: putting a second connection into a capacity-2
pool with one idle connection grows the stack by one. -/
theorem C5_wit : ((pool5.Put "b" 11).1.conns "b").length = (pool5.conns "b").length + 1 :=
  (C5_put_iff pool5 "b" 11).1.mpr (by decide)

/-- Counterexample to C7 as stated: with the empty rule list every
target is allowed, but appending the compiled rule `"a:1"` makes the
authorizer deny `"b:2"` — adding rules revoked an allowed target. -/
theorem C7_cex : isAllowedEnhanced [] "b:2" = true ∧
    (compileRules ["a:1"]).map (fun rs => isAllowedEnhanced ([] ++ rs) "b:2") = some false := by
  constructor
  · decide
  · decide

/-- Claim C7 (amended): for every NON-EMPTY rule list, appending more
rules never revokes an allowed target (the empty list is the special
allow-all case refuted by the counterexample). -/
theorem C7_monotone_nonempty (rules rs' : List TargetRule) (target : String)
    (hne : rules ≠ []) (h : isAllowedEnhanced rules target = true) :
    isAllowedEnhanced (rules ++ rs') target = true := by
  have h0 : rules.isEmpty = false := by
    cases rules with
    | nil => exact absurd rfl hne
    | cons a l => rfl
  have h1 : (rules ++ rs').isEmpty = false := by
    cases rules with
    | nil => exact absurd rfl hne
    | cons a l => rfl
  simp only [isAllowedEnhanced, h0, h1, Bool.false_eq_true, if_false] at h ⊢
  rw [List.any_append, h, Bool.true_or]

/-- Witness for C7 (amended): the exact rule `"a:1"` still allows
`"a:1"` after appending a further rule. -/
theorem C7_wit :
    isAllowedEnhanced ([⟨"a:1", none, none, false⟩] ++ [⟨"z", none, none, true⟩]) "a:1" = true :=
  C7_monotone_nonempty [⟨"a:1", none, none, false⟩] [⟨"z", none, none, true⟩] "a:1"
    (by decide) (by decide)

/-- Claim C8 (code evidence): bytes flowing on a session's bridges
never change `last_active` — only stream accept does — so a session
that accepted its stream at t = 0 and carried traffic at t = 40 is
evicted by the reaper scanning at t = 41 despite being active. -/
theorem C8_traffic_not_refreshed :
    (∀ (s : SessSt) (sid n now : Nat),
      (sessionStep s (SessEv.bytesFlow sid n now)).lastActive = s.lastActive) ∧
    (runSession ⟨0, []⟩ [SessEv.acceptStream 1 0, SessEv.bytesFlow 1 1024 40]).lastActive = 0 ∧
    reaperEvicts 41 (runSession ⟨0, []⟩
      [SessEv.acceptStream 1 0, SessEv.bytesFlow 1 1024 40]) = true :=
  ⟨fun _ _ _ _ => rfl, by decide, by decide⟩

/-- Claim C1 (code evidence): with allow-list `["127.0.0.1:22"]` the
authorizer denies `"10.0.0.1:3306"`, yet the QUIC bridge's first-read
handling dials exactly that target: the copy loop consults no rules
before `net.Dial`, keeps the connection, and does not stop (and resets
nothing). -/
theorem C1_quic_dials_denied_target :
    (compileRules ["127.0.0.1:22"]).map (fun rs => isAllowedEnhanced rs "10.0.0.1:3306") =
      some false ∧
    (runQuicToTCP (fun _ => true) {}
      [⟨"10.0.0.1:3306".toList.map Char.toNat, false⟩]).dials = ["10.0.0.1:3306"] ∧
    (runQuicToTCP (fun _ => true) {}
      [⟨"10.0.0.1:3306".toList.map Char.toNat, false⟩]).tcpConn = some "10.0.0.1:3306" ∧
    (runQuicToTCP (fun _ => true) {}
      [⟨"10.0.0.1:3306".toList.map Char.toNat, false⟩]).stopped = false := by
  refine ⟨by decide, by decide, by decide, by decide⟩

/-- Counterexample to C4 as stated: on a fresh pool (counter 0) with
backends `["b0", "b1"]`, `Get` selects `"b1"` — index `(0 + 1) % 2` —
not the backend at the old counter value `0 % 2` the claim predicts
(`atomic.AddUint32` returns the incremented value, unlike `fetch_add`).
The counter does advance by exactly one. -/
theorem C4_cex :
    (pool4.Get (fun s => s) "svc").map Prod.fst ≠
      some (["b0", "b1"].getD (pool4.counters "svc" % ["b0", "b1"].length) "") ∧
    (pool4.Get (fun s => s) "svc").map Prod.fst = some "b1" ∧
    (pool4.Get (fun s => s) "svc").map (fun r => r.2.counters "svc") =
      some (pool4.counters "svc" + 1) := by
  refine ⟨by decide, by decide, by decide⟩

/-- Claim C4 (amended): for a logical target with backend list `bs`
and counter value `c`, `Get` selects the backend at index
`((c + 1) % 2 ^ 32) % bs.length`, advances the counter to
`(c + 1) % 2 ^ 32` (exactly one increment, wrapping as `uint32`), and
returns that backend's popped idle connection, or a fresh dial when
its stack is empty. -/
theorem C4_get_round_robin {α : Type} (p : TCPPool α) (dial : String → α)
    (logical : String) (bs : List String) (b : String)
    (hb : p.backends logical = some bs) (hne : bs ≠ [])
    (hbdef : b = bs.getD ((p.counters logical + 1) % 2 ^ 32 % bs.length) "") :
    p.chosenBackend logical = some b ∧
    (p.Get dial logical).isSome = true ∧
    ∀ c p', p.Get dial logical = some (c, p') →
      p'.counters logical = (p.counters logical + 1) % 2 ^ 32 ∧
      c = (p.conns b).getLastD (dial b) ∧
      p'.conns b = (p.conns b).dropLast ∧
      p'.maxSize = p.maxSize := by
  subst hbdef
  have hbe : bs.isEmpty = false := by
    cases bs with
    | nil => exact absurd rfl hne
    | cons a l => rfl
  refine ⟨?_, ?_, ?_⟩
  · simp only [TCPPool.chosenBackend, hb, hbe, Bool.false_eq_true, if_false]
  · simp only [TCPPool.Get, hb, hbe, Bool.false_eq_true, if_false]
    cases hL : (p.conns (bs.getD ((p.counters logical + 1) % 2 ^ 32 % bs.length) "")).getLast? <;>
      simp
  · intro c p' heq
    simp only [TCPPool.Get, hb, hbe, Bool.false_eq_true, if_false] at heq
    cases hL : (p.conns (bs.getD ((p.counters logical + 1) % 2 ^ 32 % bs.length) "")).getLast? with
    | none =>
      rw [hL] at heq
      have hnil : p.conns (bs.getD ((p.counters logical + 1) % 2 ^ 32 % bs.length) "") = [] :=
        List.getLast?_eq_none_iff.mp hL
      injection heq with heq1
      injection heq1 with hc hp
      subst hc
      subst hp
      refine ⟨by simp [strUpdate], ?_, ?_, rfl⟩
      · rw [List.getLastD_eq_getLast?, hL]
        rfl
      · simp only [hnil]
        rfl
    | some c0 =>
      rw [hL] at heq
      injection heq with heq1
      injection heq1 with hc hp
      subst hc
      subst hp
      refine ⟨by simp [strUpdate], ?_, by simp [strUpdate], rfl⟩
      rw [List.getLastD_eq_getLast?, hL]
      rfl

/-- Witness for C4 (amended) on the fresh two-backend pool. -/
theorem C4_wit : pool4.chosenBackend "svc" =
    some (["b0", "b1"].getD ((pool4.counters "svc" + 1) % 2 ^ 32 % ["b0", "b1"].length) "") :=
  (C4_get_round_robin pool4 (fun s => s) "svc" ["b0", "b1"] _ (by decide) (by decide) rfl).1

/-- Counterexample to C2 as stated: in the WS→TCP direction a failed
TCP write (its error is discarded by `n, _ := Write`) does not stop the
loop — a second frame is still written; and in the QUIC→TCP direction a
read error delivered together with the first (target) chunk is skipped
by the dial's `continue`, so later data is still forwarded. -/
theorem C2_cex :
    (runWsToTCP { wres := [(0, true), (1, false)] }
      [WSEv.msg true (writeWSFrameBytes 1 [7]), WSEv.msg true (writeWSFrameBytes 1 [9])]).writes
      = [[7], [9]] ∧
    (runWsToTCP { wres := [(0, true)] }
      [WSEv.msg true (writeWSFrameBytes 1 [7])]).stopped = false ∧
    (runQuicToTCP (fun _ => true) {} [⟨[97, 58, 49], true⟩, ⟨[5], false⟩]).forwarded = [5] ∧
    (runQuicToTCP (fun _ => true) {} [⟨[97, 58, 49], true⟩]).stopped = false := by
  refine ⟨by decide, by decide, by decide, by decide⟩

/-- Claim C2 (amended): in every direction a read of zero bytes with
no error retries the loop; read errors terminate the loop except a
QUIC→TCP read error arriving with the successful target dial; write
errors terminate the TCP→WS, TCP→QUIC and QUIC→TCP directions; the
WS→TCP direction discards the TCP write's error and continues. -/
theorem C2_loop_behavior :
    (∀ (dialOk : String → Bool) (st : QTSt), quicToTCPStep dialOk st ⟨[], false⟩ = st) ∧
    (∀ st : TWSt, tcpToWSStep st ⟨[], false⟩ = st) ∧
    (∀ st : TQSt, tcpToQUICStep st ⟨[], false⟩ = st) ∧
    (∀ (st : TWSt) (d : List Nat), st.stopped = false →
      (tcpToWSStep st ⟨d, true⟩).stopped = true) ∧
    (∀ (st : TQSt) (d : List Nat), st.stopped = false →
      (tcpToQUICStep st ⟨d, true⟩).stopped = true) ∧
    (∀ (dialOk : String → Bool) (st : QTSt) (d : List Nat), st.stopped = false →
      st.tcpConn.isSome = true ∨ d = [] →
      (quicToTCPStep dialOk st ⟨d, true⟩).stopped = true) ∧
    (∀ st : WTSt, st.stopped = false → (wsToTCPStep st WSEv.fail).stopped = true) ∧
    (∀ (st : WTSt) (b : List Nat), st.stopped = false → readWSFrame b = none →
      (wsToTCPStep st (WSEv.msg true b)).stopped = true) ∧
    (∀ (st : TWSt) (d : List Nat), st.stopped = false → d ≠ [] →
      st.wres.head? = some true → (tcpToWSStep st ⟨d, false⟩).stopped = true) ∧
    (∀ (st : TQSt) (d : List Nat), st.stopped = false → d ≠ [] →
      st.wres.head? = some true → (tcpToQUICStep st ⟨d, false⟩).stopped = true) ∧
    (∀ (dialOk : String → Bool) (st : QTSt) (d : List Nat), st.stopped = false → d ≠ [] →
      st.tcpConn.isSome = true → st.wres.head? = some true →
      (quicToTCPStep dialOk st ⟨d, false⟩).stopped = true) ∧
    (∀ (st : WTSt) (b : List Nat) (payload : List Nat), st.stopped = false →
      readWSFrame b = some (1, payload) →
      (wsToTCPStep st (WSEv.msg true b)).stopped = false) := by
  refine ⟨?_, ?_, ?_, ?_, ?_, ?_, ?_, ?_, ?_, ?_, ?_, ?_⟩
  · intro dialOk st
    cases hs : st.stopped <;> simp [quicToTCPStep, hs]
  · intro st
    cases hs : st.stopped <;> simp [tcpToWSStep, hs]
  · intro st
    cases hs : st.stopped <;> simp [tcpToQUICStep, hs]
  · intro st d hs
    by_cases hd : d = []
    · simp [tcpToWSStep, hs, hd]
    · simp [tcpToWSStep, hs, hd]
      cases hw : (nextW st.wres).1 <;> simp [hw]
  · intro st d hs
    by_cases hd : d = []
    · simp [tcpToQUICStep, hs, hd]
    · simp [tcpToQUICStep, hs, hd]
      cases hw : (nextW st.wres).1 <;> simp [hw]
  · intro dialOk st d hs hc
    rcases hc with hc | hc
    · obtain ⟨conn, hconn⟩ := Option.isSome_iff_exists.mp hc
      by_cases hd : d = []
      · simp [quicToTCPStep, hs, hd]
      · simp [quicToTCPStep, hs, hd, hconn]
        cases hw : (nextW st.wres).1 <;> simp [hw]
    · simp [quicToTCPStep, hs, hc]
  · intro st hs
    simp [wsToTCPStep, hs]
  · intro st b hs hr
    simp [wsToTCPStep, hs, hr]
  · intro st d hs hd hw
    cases hwr : st.wres with
    | nil => rw [hwr] at hw; simp at hw
    | cons w ws =>
      rw [hwr] at hw
      simp at hw
      simp [tcpToWSStep, hs, hd, hwr, nextW, hw]
  · intro st d hs hd hw
    cases hwr : st.wres with
    | nil => rw [hwr] at hw; simp at hw
    | cons w ws =>
      rw [hwr] at hw
      simp at hw
      simp [tcpToQUICStep, hs, hd, hwr, nextW, hw]
  · intro dialOk st d hs hd hc hw
    obtain ⟨conn, hconn⟩ := Option.isSome_iff_exists.mp hc
    cases hwr : st.wres with
    | nil => rw [hwr] at hw; simp at hw
    | cons w ws =>
      rw [hwr] at hw
      simp at hw
      simp [quicToTCPStep, hs, hd, hconn, hwr, nextW, hw]
  · intro st b payload hs hr
    simp [wsToTCPStep, hs, hr]

/-- Witness for C2 (amended): concrete instances of the retry, the
read-error termination, and the WS→TCP continue-after-write-error
behaviors. -/
theorem C2_wit :
    quicToTCPStep (fun _ => true) {} ⟨[], false⟩ = ({} : QTSt) ∧
    (tcpToWSStep { stopped := false } ⟨[3], true⟩).stopped = true ∧
    (wsToTCPStep { wres := [(0, true)] }
      (WSEv.msg true (writeWSFrameBytes 1 [7]))).stopped = false := by
  obtain ⟨h1, _, _, h4, _, _, _, _, _, _, _, h12⟩ := C2_loop_behavior
  exact ⟨h1 _ _, h4 _ [3] rfl, h12 _ _ [7] rfl (by decide)⟩

/-- Helper: once the QUIC→TCP loop owns a TCP connection, an
error-free run forwards every chunk in order and never stops. -/
theorem runQT_all_ok (dialOk : String → Bool) :
    ∀ (evs : List ReadEv) (st : QTSt), st.stopped = false → st.tcpConn.isSome = true →
      (∀ ev ∈ evs, ev.err = false) → (∀ w ∈ st.wres, w = false) →
      (runQuicToTCP dialOk st evs).forwarded =
        st.forwarded ++ (evs.map ReadEv.data).flatten ∧
      (runQuicToTCP dialOk st evs).target = st.target ∧
      (runQuicToTCP dialOk st evs).tcpConn = st.tcpConn ∧
      (runQuicToTCP dialOk st evs).stopped = false ∧
      (runQuicToTCP dialOk st evs).dials = st.dials := by
  intro evs
  induction evs with
  | nil =>
    intro st h1 h2 h3 h4
    simp [runQuicToTCP, h1]
  | cons ev rest ih =>
    intro st h1 h2 h3 h4
    have hev : ev.err = false := h3 ev (List.mem_cons_self ev rest)
    have hrest : ∀ e ∈ rest, e.err = false := fun e he => h3 e (List.mem_cons_of_mem ev he)
    obtain ⟨conn, hconn⟩ := Option.isSome_iff_exists.mp h2
    have hrun : runQuicToTCP dialOk st (ev :: rest) =
        runQuicToTCP dialOk (quicToTCPStep dialOk st ev) rest := rfl
    by_cases hd : ev.data = []
    · have hstep : quicToTCPStep dialOk st ev = st := by
        simp [quicToTCPStep, h1, hd, hev]
      rw [hrun, hstep]
      have := ih st h1 h2 hrest h4
      simpa [hd] using this
    · have hwid : (nextW st.wres).1 = false ∧ (∀ w ∈ (nextW st.wres).2, w = false) := by
        cases hwr : st.wres with
        | nil => simp [nextW]
        | cons w ws =>
          rw [hwr] at h4
          refine ⟨by simp [nextW, h4 w (List.mem_cons_self w ws)], ?_⟩
          intro x hx
          exact h4 x (List.mem_cons_of_mem w hx)
      have hstep : quicToTCPStep dialOk st ev =
          { st with bytesReceived := st.bytesReceived + ev.data.length,
                    wres := (nextW st.wres).2,
                    forwarded := st.forwarded ++ ev.data } := by
        simp [quicToTCPStep, h1, hd, hev, hconn, hwid.1]
      rw [hrun, hstep]
      have := ih { st with bytesReceived := st.bytesReceived + ev.data.length,
                           wres := (nextW st.wres).2,
                           forwarded := st.forwarded ++ ev.data }
        h1 (by show st.tcpConn.isSome = true; rw [hconn]; rfl) hrest hwid.2
      refine ⟨?_, this.2.1, ?_, this.2.2.2.1, this.2.2.2.2⟩
      · rw [this.1]
        simp [List.append_assoc]
      · rw [this.2.2.1]

/-- Claim C6: when the QUIC bridge starts with no TCP connection, the
first (non-empty) chunk read from the stream becomes the dial target
and is not forwarded; with an error-free run, the bytes forwarded to
the backend are exactly the concatenation of all subsequent chunks. -/
theorem C6_target_handshake (dialOk : String → Bool) (t : List Nat) (evs : List ReadEv)
    (ws : List Bool) (ht : t ≠ []) (hd : dialOk (strOfBytes t) = true)
    (he : ∀ ev ∈ evs, ev.err = false) (hw : ∀ w ∈ ws, w = false) :
    (runQuicToTCP dialOk { wres := ws } (⟨t, false⟩ :: evs)).target = some (strOfBytes t) ∧
    (runQuicToTCP dialOk { wres := ws } (⟨t, false⟩ :: evs)).forwarded =
      (evs.map ReadEv.data).flatten ∧
    (runQuicToTCP dialOk { wres := ws } (⟨t, false⟩ :: evs)).tcpConn = some (strOfBytes t) ∧
    (runQuicToTCP dialOk { wres := ws } (⟨t, false⟩ :: evs)).stopped = false := by
  have hstep : quicToTCPStep dialOk { wres := ws } ⟨t, false⟩ =
      { target := some (strOfBytes t), tcpConn := some (strOfBytes t),
        dials := [strOfBytes t], wres := ws } := by
    simp [quicToTCPStep, ht, hd]
  have hrun : runQuicToTCP dialOk { wres := ws } (⟨t, false⟩ :: evs) =
      runQuicToTCP dialOk (quicToTCPStep dialOk { wres := ws } ⟨t, false⟩) evs := rfl
  rw [hrun, hstep]
  have := runQT_all_ok dialOk evs
    { target := some (strOfBytes t), tcpConn := some (strOfBytes t),
      dials := [strOfBytes t], wres := ws } rfl rfl he hw
  exact ⟨this.2.1, by rw [this.1]; simp, this.2.2.1, this.2.2.2.1⟩

/-- Witness for C6: target chunk `"a:1"` followed by data chunks
`[1, 2]`, a zero-byte read, and `[3]`. -/
theorem C6_wit :
    (runQuicToTCP (fun _ => true) { wres := [] }
      ([⟨[97, 58, 49], false⟩] ++ [⟨[1, 2], false⟩, ⟨[], false⟩, ⟨[3], false⟩])).target
      = some (strOfBytes [97, 58, 49]) ∧
    (runQuicToTCP (fun _ => true) { wres := [] }
      ([⟨[97, 58, 49], false⟩] ++ [⟨[1, 2], false⟩, ⟨[], false⟩, ⟨[3], false⟩])).forwarded
      = ([⟨[1, 2], false⟩, ⟨[], false⟩, ⟨[3], false⟩].map ReadEv.data).flatten ∧
    (runQuicToTCP (fun _ => true) { wres := [] }
      ([⟨[97, 58, 49], false⟩] ++ [⟨[1, 2], false⟩, ⟨[], false⟩, ⟨[3], false⟩])).tcpConn
      = some (strOfBytes [97, 58, 49]) ∧
    (runQuicToTCP (fun _ => true) { wres := [] }
      ([⟨[97, 58, 49], false⟩] ++ [⟨[1, 2], false⟩, ⟨[], false⟩, ⟨[3], false⟩])).stopped
      = false :=
  C6_target_handshake (fun _ => true) [97, 58, 49]
    [⟨[1, 2], false⟩, ⟨[], false⟩, ⟨[3], false⟩] [] (by decide) rfl (by decide) (by decide)

/-- Helper: `QuoteMeta` output never starts with a bare `*`. -/
theorem quoteMeta_head_ne_star (l : List Char) : (quoteMeta l).head? ≠ some '*' := by
  cases l with
  | nil => simp [quoteMeta]
  | cons c rest =>
    by_cases hc : isSpecial c = true
    · simp [quoteMeta, hc]
    · simp [quoteMeta, hc]
      intro h
      exact hc (by rw [h]; decide)

/-- Helper: the replacement leaves a head character alone unless it
opens a backslash-star pair. -/
theorem replaceEscStar_cons (c : Char) (l : List Char)
    (h : c ≠ '\\' ∨ l.head? ≠ some '*') :
    replaceEscStar (c :: l) = c :: replaceEscStar l := by
  cases l with
  | nil => simp [replaceEscStar]
  | cons d rest =>
    have hcd : ¬ (c = '\\' ∧ d = '*') := by
      rcases h with h | h
      · exact fun hh => h hh.1
      · exact fun hh => h (by simp [hh.2])
    simp [replaceEscStar, hcd]

/-- Helper: over a quoted pattern, the backslash-star replacement
acts blockwise — `*` becomes `.*`, other specials stay escaped. -/
theorem replace_quote (tail : List Char) (htail : tail.head? ≠ some '*') :
    ∀ l : List Char,
      replaceEscStar (quoteMeta l ++ tail) = l.flatMap escGo ++ replaceEscStar tail := by
  intro l
  induction l with
  | nil => simp [quoteMeta]
  | cons c rest ih =>
    by_cases hsp : isSpecial c = true
    · by_cases hstar : c = '*'
      · subst hstar
        have hq : quoteMeta ('*' :: rest) = '\\' :: '*' :: quoteMeta rest := by
          simp [quoteMeta, hsp]
        rw [hq]
        have h1 : replaceEscStar ('\\' :: '*' :: (quoteMeta rest ++ tail)) =
            '.' :: '*' :: replaceEscStar (quoteMeta rest ++ tail) := by
          simp [replaceEscStar]
        simp only [List.cons_append]
        rw [h1, ih]
        simp [escGo]
      · have hq : quoteMeta (c :: rest) = '\\' :: c :: quoteMeta rest := by
          simp [quoteMeta, hsp]
        rw [hq]
        simp only [List.cons_append]
        have h1 : replaceEscStar ('\\' :: c :: (quoteMeta rest ++ tail)) =
            '\\' :: replaceEscStar (c :: (quoteMeta rest ++ tail)) := by
          simp [replaceEscStar, hstar]
        have h2 : replaceEscStar (c :: (quoteMeta rest ++ tail)) =
            c :: replaceEscStar (quoteMeta rest ++ tail) := by
          apply replaceEscStar_cons
          by_cases hcb : c = '\\'
          · right
            cases hqr : quoteMeta rest with
            | nil => simpa [hqr] using htail
            | cons x xs =>
              have hx := quoteMeta_head_ne_star rest
              rw [hqr] at hx
              simpa [hqr] using hx
          · exact Or.inl hcb
        rw [h1, h2, ih]
        simp [List.flatMap_cons, escGo, hstar, hsp]
    · have hcb : c ≠ '\\' := fun h => hsp (by rw [h]; decide)
      have hcs : c ≠ '*' := fun h => hsp (by rw [h]; decide)
      have hq : quoteMeta (c :: rest) = c :: quoteMeta rest := by
        simp [quoteMeta, hsp]
      rw [hq]
      simp only [List.cons_append]
      rw [replaceEscStar_cons c _ (Or.inl hcb), ih]
      simp [List.flatMap_cons, escGo, hcs, hsp]



/-- Counterexample to C3 as stated: the entry `"a?b"` compiles to
`^a\?b$` (the `?` stays escaped), not the `^a.b$` the claim
describes, and the two differ observably: the compiled regex rejects
`"axb"` (which the claimed regex accepts) and matches only a literal
`?`. -/
theorem C3_cex :
    compileWildcardPattern "a?b" = ['^', 'a', '\\', '?', 'b', '$'] ∧
    specWildcardPattern "a?b" = ['^', 'a', '.', 'b', '$'] ∧
    compileWildcardPattern "a?b" ≠ specWildcardPattern "a?b" ∧
    regexMatchString (compileWildcardPattern "a?b") "axb" = false ∧
    regexMatchString (specWildcardPattern "a?b") "axb" = true ∧
    regexMatchString (compileWildcardPattern "a?b") "a?b" = true := by
  refine ⟨by decide, by decide, by decide, by decide, by decide, by decide⟩

/-- Claim C3 (amended): for every entry containing a wildcard
character (and no `/`), compilation yields an anchored regex in which
every `*` becomes `.*`, while `?` and every other regex-special
character are backslash-escaped (matching themselves literally) and
remaining characters appear literally. -/
theorem C3_wildcard_compilation (t : String)
    (hw : t.toList.contains '*' = true ∨ t.toList.contains '?' = true)
    (hs : t.toList.contains '/' = false) :
    compileRules [t] =
      some [{ raw := t, regex := some (compileWildcardPattern t), isDomain := true }] ∧
    compileWildcardPattern t = '^' :: t.toList.flatMap escGo ++ ['$'] := by
  constructor
  · have hs' := hs
    have hw' := hw
    simp at hs' hw'
    simp [compileRules, hs', hw']
  · show replaceEscStar ('^' :: quoteMeta t.toList ++ ['$']) = _
    rw [show ('^' :: quoteMeta t.toList ++ ['$'] : List Char) =
        '^' :: (quoteMeta t.toList ++ ['$']) from rfl]
    rw [replaceEscStar_cons '^' _ (Or.inl (by decide))]
    rw [replace_quote ['$'] (by decide) t.toList]
    rfl

/-- Witness for C3 (amended) at the entry `"a*b"`. -/
theorem C3_wit :
    compileRules ["a*b"] =
      some [{ raw := "a*b", regex := some (compileWildcardPattern "a*b"),
              isDomain := true }] ∧
    compileWildcardPattern "a*b" = '^' :: "a*b".toList.flatMap escGo ++ ['$'] :=
  C3_wildcard_compilation "a*b" (Or.inl (by decide)) (by decide)

end AnyLink
